import Mathlib

/-! The LLSD parameter-block bridge of `indra/llui/llsdparam.cpp`.

A shallow embedding of `LLParamSDParser`: the recursive reader `readSD` /
`readSDValues`, the writer `writeSD` with its node lookup `getSDWriteNode`, and
the unsigned-integer codec `writeU32Param`.

Conventions of the embedding.

* Pointers are modelled by what they point to: `mCurReadSD` is `none` for `NULL`
  and `some node` when it points at a node of the input tree; `mWriteSD` is `none`
  for `NULL` and `some tree` when it points at the output tree, whose current
  content is `tree`.
* `mNameStack` is a `std::vector`; it is a list with the root segment first, so
  `push_back` appends at the end and `back()` is the last element.
* `mNameStack.back()` on an empty vector is undefined behaviour: the walk then has
  no defined result, which is the value `none` of `readSDValues`.
* The calls made to `submitValue` are recorded in the field `calls` of the walk
  state. That field is a ghost: no decision of the walk reads it.
-/

namespace Kokua

/-! ## Data model -/

/-- Modelled from the spec: the dynamic value tree of `llsd.h` (that header is not
among the sources): Null, Boolean, Integer, Real, String, UUID, Date, URI, Map and
Array. A real number is carried as its bit pattern and is never computed with. A
map is its list of entries in iteration order. -/
inductive LLSD where
  | undef
  | boolean (b : Bool)
  | integer (i : Int)
  | real (bits : Nat)
  | string (s : String)
  | uuid (u : String)
  | date (d : Nat)
  | uri (u : String)
  | map (entries : List (String × LLSD))
  | array (elems : List LLSD)

namespace LLSD

/-- The test `sd.isMap()`. -/
def isMap : LLSD → Bool
  | .map _ => true
  | _ => false

/-- The test `sd.isArray()`. -/
def isArray : LLSD → Bool
  | .array _ => true
  | _ => false

/-- A node that is neither a map nor an array: a scalar or null. -/
def isLeaf (sd : LLSD) : Bool := !sd.isMap && !sd.isArray

/-- An array with at least one element. -/
def isNonEmptyArray : LLSD → Bool
  | .array (_ :: _) => true
  | _ => false

end LLSD

/-- The type `name_stack_t`: a vector of (key, generation) pairs, root first. -/
abbrev name_stack_t := List (String × Nat)

/-- The members of `LLParamSDParser` that `llsdparam.cpp` reads or writes, with the
generation counter and the silent flag of its base class `Parser`. -/
structure LLParamSDParser where
  mCurReadSD : Option LLSD
  mNameStack : name_stack_t
  mParseSilently : Bool
  mParseGeneration : Nat
  mWriteSD : Option LLSD

/-- Modelled from the spec: `newParseGeneration` of the base class (declared in a
header that is not among the sources), "a single monotonically increasing counter":
it advances the counter and returns the new value. -/
def newParseGeneration (p : LLParamSDParser) : Nat × LLParamSDParser :=
  (p.mParseGeneration + 1, { p with mParseGeneration := p.mParseGeneration + 1 })

/-- Modelled from the spec: `setParseSilently` of the base class, "set the
silent-diagnostics flag". -/
def setParseSilently (p : LLParamSDParser) (silent : Bool) : LLParamSDParser :=
  { p with mParseSilently := silent }

/-- The statement `mNameStack.back().second = g`: the generation of the last
segment is replaced. On the empty vector `back()` has no element to refer to and
the statement has no defined result. -/
def setBackGeneration (ns : name_stack_t) (g : Nat) : Option name_stack_t :=
  match ns.getLast? with
  | none => none
  | some seg => some (ns.dropLast ++ [(seg.1, g)])

/-! ## The reflection layer, as the interface the parser calls -/

/-- A typed field value handed to a registered writer. Floating-point and boolean
fields are left out: the boolean pair is registered through the `F32` functions,
which reinterprets the memory of the field. -/
inductive ParamValue where
  | s32 (v : Int)
  | u32 (v : Nat)
  | string (s : String)
  | uuid (u : String)
  | date (d : Nat)
  | uri (u : String)
deriving DecidableEq

/-- What `serializeBlock` does with the parser: a sequence of writer invocations,
each with a field value and the path it is to be written at, where the block may
choose how to go on from the result of each invocation. -/
inductive Serialization where
  | done
  | write (val : ParamValue) (name_stack : name_stack_t) (next : Bool → Serialization)

/-- The external collaborator `LLInitParam::BaseBlock` with state `β`, by the two
entry points the parser calls. `submitValue` receives the path and the parser (a
registered reader reads `mCurReadSD` from it) and returns the new block and whether
the path was resolved; it does not change the parser. -/
structure BaseBlock (β : Type) where
  submitValue : β → name_stack_t → LLParamSDParser → β × Bool
  serializeBlock : β → Serialization

/-- One recorded call of `submitValue`: the path and the cursor at that moment. -/
structure SubmitCall where
  name_stack : name_stack_t
  cursor : Option LLSD

/-- The state threaded through a read: the parser, the block, and the ghost record
of the `submitValue` calls made so far, oldest first. -/
structure ReadState (β : Type) where
  parser : LLParamSDParser
  block : β
  calls : List SubmitCall

/-! ## The reader -/

/-- The `else` branch of `readSDValues` (lines 119-123): bind the cursor to the
node and call `submitValue`; the returned flag is dropped, as in the source. -/
def submitLeaf {β : Type} (blk : BaseBlock β) (sd : LLSD) (st : ReadState β) : ReadState β :=
  let p := { st.parser with mCurReadSD := some sd }
  { parser := p
    block := (blk.submitValue st.block p.mNameStack p).1
    calls := st.calls ++ [{ name_stack := p.mNameStack, cursor := p.mCurReadSD }] }

/-- The statement of line 104: push a segment with a fresh generation. -/
def pushSegment {β : Type} (key : String) (st : ReadState β) : ReadState β :=
  let gp := newParseGeneration st.parser
  { st with parser := { gp.2 with mNameStack := gp.2.mNameStack ++ [(key, gp.1)] } }

/-- The statement of line 106: `mNameStack.pop_back()`. -/
def popSegment {β : Type} (st : ReadState β) : ReadState β :=
  { st with parser := { st.parser with mNameStack := st.parser.mNameStack.dropLast } }

/-- The statement of line 115: give the top segment a fresh generation. -/
def updateGeneration {β : Type} (st : ReadState β) : Option (ReadState β) :=
  let gp := newParseGeneration st.parser
  match setBackGeneration gp.2.mNameStack gp.1 with
  | none => none
  | some ns => some { st with parser := { gp.2 with mNameStack := ns } }

mutual
/-- The function `LLParamSDParser::readSDValues` (lines 96-124). -/
def readSDValues {β : Type} (blk : BaseBlock β) : LLSD → ReadState β → Option (ReadState β)
  | .map entries, st => readSDMap blk entries st
  | .array elems, st => readSDArray blk elems st
  | LLSD.undef, st => some (submitLeaf blk LLSD.undef st)
  | .boolean b, st => some (submitLeaf blk (.boolean b) st)
  | .integer i, st => some (submitLeaf blk (.integer i) st)
  | .real r, st => some (submitLeaf blk (.real r) st)
  | .string s, st => some (submitLeaf blk (.string s) st)
  | .uuid u, st => some (submitLeaf blk (.uuid u) st)
  | .date d, st => some (submitLeaf blk (.date d) st)
  | .uri u, st => some (submitLeaf blk (.uri u) st)
/-- The loop of lines 100-107 over the entries that remain. -/
def readSDMap {β : Type} (blk : BaseBlock β) :
    List (String × LLSD) → ReadState β → Option (ReadState β)
  | [], st => some st
  | (key, value) :: rest, st =>
    match readSDValues blk value (pushSegment key st) with
    | none => none
    | some st1 => readSDMap blk rest (popSegment st1)
/-- The loop of lines 111-117 over the elements that remain. -/
def readSDArray {β : Type} (blk : BaseBlock β) :
    List LLSD → ReadState β → Option (ReadState β)
  | [], st => some st
  | elem :: rest, st =>
    match updateGeneration st with
    | none => none
    | some st1 =>
      match readSDValues blk elem st1 with
      | none => none
      | some st2 => readSDArray blk rest st2
end

/-- The state in which `readSD` starts the walk (lines 83-85): cursor cleared, path
cleared, silent flag set. The generation counter is not touched. -/
def readSDInit {β : Type} (silent : Bool) (p : LLParamSDParser) (block : β) : ReadState β :=
  { parser := setParseSilently { p with mCurReadSD := none, mNameStack := [] } silent
    block := block
    calls := [] }

/-- The function `LLParamSDParser::readSD` (lines 81-88). -/
def readSD {β : Type} (blk : BaseBlock β) (sd : LLSD) (silent : Bool)
    (p : LLParamSDParser) (block : β) : Option (ReadState β) :=
  readSDValues blk sd (readSDInit silent p block)

/-! ## Vocabulary of the claims about the reader -/

mutual
/-- The scalar-or-null nodes of a tree in depth-first order: map entries in
iteration order, array elements in index order. -/
def leaves : LLSD → List LLSD
  | .map entries => leavesMap entries
  | .array elems => leavesArray elems
  | sd => [sd]
/-- The leaves below the entries of a map. -/
def leavesMap : List (String × LLSD) → List LLSD
  | [] => []
  | (_, value) :: rest => leaves value ++ leavesMap rest
/-- The leaves below the elements of an array. -/
def leavesArray : List LLSD → List LLSD
  | [] => []
  | elem :: rest => leaves elem ++ leavesArray rest
end

mutual
/-- For each leaf in depth-first order, the keys of the map entries taken on the
route from the root to the leaf (root first), with the leaf. An array on the route
contributes no key. -/
def routes : LLSD → List (List String × LLSD)
  | .map entries => routesMap entries
  | .array elems => routesArray elems
  | sd => [([], sd)]
/-- The routes through the entries of a map. -/
def routesMap : List (String × LLSD) → List (List String × LLSD)
  | [] => []
  | (key, value) :: rest =>
    (routes value).map (fun r => (key :: r.1, r.2)) ++ routesMap rest
/-- The routes through the elements of an array. -/
def routesArray : List LLSD → List (List String × LLSD)
  | [] => []
  | elem :: rest => routes elem ++ routesArray rest
end

mutual
/-- For each leaf in depth-first order, the number of map nodes on the route from
the root to the leaf. -/
def mapDepths : LLSD → List Nat
  | .map entries => (mapDepthsMap entries).map (· + 1)
  | .array elems => mapDepthsArray elems
  | _ => [0]
/-- The depths below the entries of a map, not counting that map. -/
def mapDepthsMap : List (String × LLSD) → List Nat
  | [] => []
  | (_, value) :: rest => mapDepths value ++ mapDepthsMap rest
/-- The depths below the elements of an array. -/
def mapDepthsArray : List LLSD → List Nat
  | [] => []
  | elem :: rest => mapDepths elem ++ mapDepthsArray rest
end

mutual
/-- The number of generations a walk of the tree draws from the counter: one for
each map entry and one for each array element. -/
def genCount : LLSD → Nat
  | .map entries => genCountMap entries
  | .array elems => genCountArray elems
  | _ => 0
/-- The generations drawn by the loop over map entries. -/
def genCountMap : List (String × LLSD) → Nat
  | [] => 0
  | (_, value) :: rest => 1 + genCount value + genCountMap rest
/-- The generations drawn by the loop over array elements. -/
def genCountArray : List LLSD → Nat
  | [] => 0
  | elem :: rest => 1 + genCount elem + genCountArray rest
end

/-- The keys of a path, root first, generations dropped. -/
def pathKeys (ns : name_stack_t) : List String := ns.map Prod.fst

/-- What a recorded call shows apart from generations: path keys and cursor. -/
def SubmitCall.view (c : SubmitCall) : List String × Option LLSD :=
  (pathKeys c.name_stack, c.cursor)

/-- The tree of the scenario in the spec: a map with "a" bound to 5 and "b" to the
array 1, 2, 3. -/
def scenarioTree : LLSD :=
  .map [("a", .integer 5), ("b", .array [.integer 1, .integer 2, .integer 3])]

/-- A block without fields: it resolves no path and writes nothing. -/
def nullBlock : BaseBlock Unit where
  submitValue := fun _ _ _ => ((), false)
  serializeBlock := fun _ => .done

/-- A parser that has not read anything yet and has the tree `root` bound as its
output. -/
def boundParser (root : LLSD) : LLParamSDParser where
  mCurReadSD := none
  mNameStack := []
  mParseSilently := false
  mParseGeneration := 0
  mWriteSD := some root

/-- A parser that has not read or written anything yet. -/
def freshParser : LLParamSDParser where
  mCurReadSD := none
  mNameStack := []
  mParseSilently := false
  mParseGeneration := 0
  mWriteSD := none

/-- The cursor after a walk that visited the leaves of `rs` in order, when it was
`dflt` before: the last leaf, or `dflt` when there was none. -/
def lastCursor (rs : List (List String × LLSD)) (dflt : Option LLSD) : Option LLSD :=
  match rs.getLast? with
  | some r => some r.2
  | none => dflt

/-- The effect of a stretch of the walk that draws `n` generations and visits the
leaves of `rs`: the path keeps its keys and all segments below the top one, the
counter advances by `n`, the write pointer and the silent flag stay, the cursor is
the last leaf visited, and the calls for `rs` are appended to the record. -/
structure WalkFacts {β : Type} (n : Nat) (rs : List (List String × LLSD))
    (st st1 : ReadState β) : Prop where
  stack_init : st1.parser.mNameStack.dropLast = st.parser.mNameStack.dropLast
  stack_keys : pathKeys st1.parser.mNameStack = pathKeys st.parser.mNameStack
  counter : st1.parser.mParseGeneration = st.parser.mParseGeneration + n
  write_root : st1.parser.mWriteSD = st.parser.mWriteSD
  silent : st1.parser.mParseSilently = st.parser.mParseSilently
  cursor : st1.parser.mCurReadSD = lastCursor rs st.parser.mCurReadSD
  calls : ∃ new, st1.calls = st.calls ++ new ∧
    new.map SubmitCall.view =
      rs.map (fun r => (pathKeys st.parser.mNameStack ++ r.1, some r.2))

/-- The state in which the loop over the entries of a map reaches entry `i`, when
the loop started in `st`: the state left by the loop over the entries before it. -/
def stateAtEntry {β : Type} (blk : BaseBlock β) (entries : List (String × LLSD))
    (st : ReadState β) (i : Nat) : Option (ReadState β) :=
  readSDMap blk (entries.take i) st

/-- The state in which the value of entry `i` of a map is walked, when the loop
over the map started in `st`: the state the loop reaches entry `i` in, after the
push of line 104 for the key of that entry. -/
def stateInEntry {β : Type} (blk : BaseBlock β) (entries : List (String × LLSD))
    (st : ReadState β) (i : Nat) : Option (ReadState β) :=
  match entries[i]?, stateAtEntry blk entries st i with
  | some entry, some s => some (pushSegment entry.1 s)
  | _, _ => none

/-- The state in which the loop over the elements of an array reaches element `i`,
when the loop started in `st`. -/
def stateAtElement {β : Type} (blk : BaseBlock β) (elems : List LLSD)
    (st : ReadState β) (i : Nat) : Option (ReadState β) :=
  readSDArray blk (elems.take i) st

/-- The state in which element `i` of an array is walked, when the loop over the
array started in `st`: the state the loop reaches element `i` in, after the update
of line 115. -/
def stateInElement {β : Type} (blk : BaseBlock β) (elems : List LLSD)
    (st : ReadState β) (i : Nat) : Option (ReadState β) :=
  match stateAtElement blk elems st i with
  | none => none
  | some s => updateGeneration s

/-- A path with every generation raised by `d`. -/
def shiftStack (d : Nat) (ns : name_stack_t) : name_stack_t :=
  ns.map (fun seg => (seg.1, seg.2 + d))

/-- A recorded call with every generation of its path raised by `d`. -/
def shiftCall (d : Nat) (c : SubmitCall) : SubmitCall :=
  { c with name_stack := shiftStack d c.name_stack }

/-- Two walk states, possibly over different blocks, that agree on the cursor and
on the keys, and where path, counter and recorded calls of the second are those of
the first with every generation raised by `d`. -/
structure Shifted {β1 β2 : Type} (d : Nat) (s1 : ReadState β1) (s2 : ReadState β2) : Prop where
  stack : s2.parser.mNameStack = shiftStack d s1.parser.mNameStack
  counter : s2.parser.mParseGeneration = s1.parser.mParseGeneration + d
  cursor : s2.parser.mCurReadSD = s1.parser.mCurReadSD
  calls : s2.calls = s1.calls.map (shiftCall d)

/-- Two optional results are both absent, or both present and related. -/
def OptionRel {α1 α2 : Type} (R : α1 → α2 → Prop) : Option α1 → Option α2 → Prop
  | some a, some b => R a b
  | none, none => True
  | _, _ => False

/-- A block without fields whose `submitValue` always answers `ok`. -/
def constBlock (ok : Bool) : BaseBlock Unit where
  submitValue := fun _ _ _ => ((), ok)
  serializeBlock := fun _ => .done

/-! ## The writer -/

/-- The conversion of an integer to `S32`: reduction modulo 2^32 into the range
from -2^31 to 2^31 - 1. On a `U32` value this is the cast `(S32)` of line 77. -/
@[irreducible]
def toS32 (n : Int) : Int := (n + 2 ^ 31) % 2 ^ 32 - 2 ^ 31

/-- The conversion of an integer to `U32`: reduction modulo 2^32. -/
@[irreducible]
def toU32 (n : Int) : Nat := (n % 2 ^ 32).toNat

/-- A node of the output tree as a pointer value: the keys that lead from the tree
bound by `writeSD` to the node. The empty list is the bound root itself. -/
abbrev SDNode := List String

mutual
/-- The tree after `node->assign(v)`, for the node at the given address. -/
def LLSD.assignAt : LLSD → SDNode → LLSD → LLSD
  | _, [], v => v
  | .map entries, key :: keys, v => .map (assignEntries entries key keys v)
  | sd, _ :: _, _ => sd
/-- The entries of a map after an assignment below the entry `key`. -/
def assignEntries : List (String × LLSD) → String → SDNode → LLSD → List (String × LLSD)
  | [], _, _, _ => []
  | (k1, v1) :: rest, key, keys, v =>
    if k1 = key then (k1, LLSD.assignAt v1 keys v) :: rest
    else (k1, v1) :: assignEntries rest key keys v
end

/-- The entry of a map under a key, if the node is a map that has one. -/
def LLSD.member : LLSD → String → Option LLSD
  | .map entries, key => (entries.find? (fun e => e.1 == key)).map Prod.snd
  | _, _ => none

/-- The function `LLParamSDParser::getSDWriteNode` (lines 139-143): it returns
`mWriteSD`, that is the null pointer when nothing is bound and the address of the
bound root otherwise, whatever the path. -/
def getSDWriteNode (p : LLParamSDParser) (_name_stack : name_stack_t) : Option SDNode :=
  match p.mWriteSD with
  | none => none
  | some _ => some []

/-- The shape shared by the registered writers (lines 70-79): fail when nothing is
bound or the lookup gives no node, else assign `v` to the node found and succeed. -/
def writeNode (p : LLParamSDParser) (v : LLSD) (name_stack : name_stack_t) :
    Bool × LLParamSDParser :=
  match p.mWriteSD with
  | none => (false, p)
  | some tree =>
    match getSDWriteNode p name_stack with
    | none => (false, p)
    | some node => (true, { p with mWriteSD := some (tree.assignAt node v) })

/-- The function `LLParamSDParser::writeU32Param` (lines 70-79): the value is cast
to `S32` and assigned as an integer. -/
def writeU32Param (p : LLParamSDParser) (val : Nat) (name_stack : name_stack_t) :
    Bool × LLParamSDParser :=
  writeNode p (.integer (toS32 val)) name_stack

/-- The tree value a registered writer assigns for a field value: the value itself
in the variant of its type, and for `U32` the integer of its cast to `S32`. -/
def emitted : ParamValue → LLSD
  | .s32 v => .integer v
  | .u32 v => .integer (toS32 v)
  | .string s => .string s
  | .uuid u => .uuid u
  | .date d => .date d
  | .uri u => .uri u

/-- Modelled from the spec: `writeTypedValue` (a template of the header, not among
the sources), "writer reads a typed memory slot and writes its converted value into
the output tree at the current path": the same steps as `writeU32Param`, without
the cast. -/
def writeTypedValue (p : LLParamSDParser) (val : ParamValue) (name_stack : name_stack_t) :
    Bool × LLParamSDParser :=
  writeNode p (emitted val) name_stack

/-- The writer registered for the type of the value (constructor, lines 40-57):
`writeU32Param` for `U32`, `writeTypedValue` for the other types. -/
def writeValue (p : LLParamSDParser) (val : ParamValue) (name_stack : name_stack_t) :
    Bool × LLParamSDParser :=
  match val with
  | .u32 v => writeU32Param p v name_stack
  | v => writeTypedValue p v name_stack

/-- The writer invocations of a serialization carried out one after the other. -/
def runSerialization : Serialization → LLParamSDParser → LLParamSDParser
  | .done, p => p
  | .write val name_stack next, p =>
    let r := writeValue p val name_stack
    runSerialization (next r.1) r.2

/-- The function `LLParamSDParser::writeSD` (lines 90-94): bind the output tree,
then let the block serialize itself. The output tree afterwards is the content of
`mWriteSD` in the result. -/
def writeSD {β : Type} (blk : BaseBlock β) (sd : LLSD) (block : β)
    (p : LLParamSDParser) : LLParamSDParser :=
  runSerialization (blk.serializeBlock block) { p with mWriteSD := some sd }

/-! ## The registered readers -/

/-- Modelled from the spec: the conversions `asInteger`, `asString`, `asUUID`,
`asDate` and `asURI` of `llsd.h` applied to a node of another type than the one
asked for. They are not fixed here; every result below holds for each choice. -/
structure SDConversions where
  integerOf : LLSD → Int
  stringOf : LLSD → String
  uuidOf : LLSD → String
  dateOf : LLSD → Nat
  uriOf : LLSD → String

/-- Modelled from the spec: `LLSD::asInteger`, the stored value of an Integer. -/
def asInteger (cv : SDConversions) : LLSD → Int
  | .integer i => i
  | sd => cv.integerOf sd

/-- Modelled from the spec: `LLSD::asString`, the stored value of a String. -/
def asString (cv : SDConversions) : LLSD → String
  | .string s => s
  | sd => cv.stringOf sd

/-- Modelled from the spec: `LLSD::asUUID`, the stored value of a UUID. -/
def asUUID (cv : SDConversions) : LLSD → String
  | .uuid u => u
  | sd => cv.uuidOf sd

/-- Modelled from the spec: `LLSD::asDate`, the stored value of a Date. -/
def asDate (cv : SDConversions) : LLSD → Nat
  | .date d => d
  | sd => cv.dateOf sd

/-- Modelled from the spec: `LLSD::asURI`, the stored value of a URI. -/
def asURI (cv : SDConversions) : LLSD → String
  | .uri u => u
  | sd => cv.uriOf sd

/-- Modelled from the spec: `readTypedValue` (a template of the header, not among
the sources), "reader consumes the current-scalar cursor and writes the converted
value into a caller-supplied typed memory slot, returning success/failure". -/
def readTypedValue {T : Type} (p : LLParamSDParser) (conv : LLSD → T) (slot : T) : Bool × T :=
  match p.mCurReadSD with
  | none => (false, slot)
  | some sd => (true, conv sd)

/-- The reader registered for `U32` (line 42): `readTypedValue<U32>` bound to
`LLSD::asInteger`; the `S32` result is converted to the `U32` slot. -/
def readU32 (cv : SDConversions) (p : LLParamSDParser) (slot : Nat) : Bool × Nat :=
  readTypedValue p (fun sd => toU32 (asInteger cv sd)) slot

/-- The reader registered for the type of the slot (constructor, lines 40-57). -/
def readValue (cv : SDConversions) (p : LLParamSDParser) : ParamValue → Bool × ParamValue
  | .s32 v => readTypedValue p (fun sd => .s32 (asInteger cv sd)) (.s32 v)
  | .u32 v => readTypedValue p (fun sd => .u32 (toU32 (asInteger cv sd))) (.u32 v)
  | .string s => readTypedValue p (fun sd => .string (asString cv sd)) (.string s)
  | .uuid u => readTypedValue p (fun sd => .uuid (asUUID cv sd)) (.uuid u)
  | .date d => readTypedValue p (fun sd => .date (asDate cv sd)) (.date d)
  | .uri u => readTypedValue p (fun sd => .uri (asURI cv sd)) (.uri u)

/-! ## A block with top-level scalar fields -/

/-- A declared top-level field: its name, its default and its current value. -/
structure Field where
  name : String
  dflt : ParamValue
  value : ParamValue
deriving DecidableEq

/-- Modelled from the spec: `serializeBlock` of a block whose fields are all
top-level scalars, "iterates its own declared fields and, for each field holding a
non-default value, invokes the registered writer for that field's type, passing the
field's memory and the path at which it should be written". The path of a field is
the single segment of its name. -/
def serializeFields : List Field → Serialization
  | [] => .done
  | f :: rest =>
    if f.value = f.dflt then serializeFields rest
    else .write f.value [(f.name, 0)] (fun _ => serializeFields rest)

/-- The field named `key` read with the reader of its type, if there is one. -/
def submitField (cv : SDConversions) (p : LLParamSDParser) (key : String) :
    List Field → List Field × Bool
  | [] => ([], false)
  | f :: rest =>
    if f.name = key then
      let r := readValue cv p f.value
      ({ f with value := r.2 } :: rest, r.1)
    else
      let r := submitField cv p key rest
      (f :: r.1, r.2)

/-- Modelled from the spec: `submitValue` of a block whose fields are all top-level
scalars, "given the current path, locate the declared field, invoke the matching
registered reader against it, return whether a field was found and successfully
read". A top-level field is located by a path of exactly one segment. -/
def submitFlat (cv : SDConversions) (fields : List Field) (name_stack : name_stack_t)
    (p : LLParamSDParser) : List Field × Bool :=
  match name_stack with
  | [seg] => submitField cv p seg.1 fields
  | _ => (fields, false)

/-- Modelled from the spec: the reflection layer of a block whose fields are all
top-level scalars (the reflection layer is not among the sources). -/
def flatBlock (cv : SDConversions) : BaseBlock (List Field) where
  submitValue := submitFlat cv
  serializeBlock := serializeFields

/-- A fresh block of the same shape: every field at its default. -/
def freshFields (fields : List Field) : List Field :=
  fields.map (fun f => { f with value := f.dflt })

/-- The value of the last field that differs from its default, if any. -/
def lastWritten : List Field → Option ParamValue
  | [] => none
  | f :: rest =>
    match lastWritten rest with
    | some v => some v
    | none => if f.value = f.dflt then none else some f.value

/-- Conversions that answer zero and the empty string. -/
def zeroConversions : SDConversions where
  integerOf := fun _ => 0
  stringOf := fun _ => ""
  uuidOf := fun _ => ""
  dateOf := fun _ => 0
  uriOf := fun _ => ""

/-! ## The any-value reader, the record of writer invocations, the element name -/

/-- The function `LLParamSDParser::readSDParam` (lines 62-67), the reader registered
for the tree-value type itself: with a null cursor it returns false and leaves the
slot alone, else it copies the node under the cursor into the slot and returns
true. The result is the flag and the slot afterwards. -/
def readSDParam (p : LLParamSDParser) (slot : LLSD) : Bool × LLSD :=
  match p.mCurReadSD with
  | none => (false, slot)
  | some sd => (true, sd)

/-- One writer invocation of a serialization: the value, the path, and the flag the
writer returned. -/
structure WriteCall where
  val : ParamValue
  name_stack : name_stack_t
  ok : Bool

/-- The writer invocations that `runSerialization` carries out from the parser `p`,
in order, each with the flag it returned. A ghost: it follows the recursion of
`runSerialization` and records what `writeValue` is called with and answers. -/
def writeLog : Serialization → LLParamSDParser → List WriteCall
  | .done, _ => []
  | .write val name_stack next, p =>
    let r := writeValue p val name_stack
    { val := val, name_stack := name_stack, ok := r.1 } :: writeLog (next r.1) r.2

/-- A block that is its own serialization and resolves no path. -/
def scriptBlock : BaseBlock Serialization where
  submitValue := fun b _ _ => (b, false)
  serializeBlock := fun b => b

/-- The characters of a key that `it->first.c_str()` hands to a `%s` conversion
(line 133): those before the first NUL character, all of them when there is none. -/
def cString (key : String) : String :=
  String.mk (key.data.takeWhile (fun c => c != Char.ofNat 0))

/-- Modelled from the spec: `llformat("[%s]", str)` (declared in a header that is
not among the sources), "bracketed key segments": the C string between brackets. -/
def formatSegment (str : String) : String := "[" ++ str ++ "]"

/-- The function `LLParamSDParser::getCurrentElementName` (lines 126-137): start
from the label "sd" and append, for each segment, root first, the bracketed C
string of its key. The result is the name and the parser afterwards; no member is
assigned. -/
def getCurrentElementName (p : LLParamSDParser) : String × LLParamSDParser :=
  (p.mNameStack.foldl (fun full_name seg => full_name ++ formatSegment (cString seg.1)) "sd", p)

/-- One bracketed key per key, in order. -/
def bracketedKeys : List String → String
  | [] => ""
  | key :: rest => "[" ++ key ++ "]" ++ bracketedKeys rest

/-! ## Induction over trees -/

theorem LLSD.induction3 {P : LLSD → Prop} {PM : List (String × LLSD) → Prop}
    {PA : List LLSD → Prop}
    (leaf : ∀ sd, sd.isLeaf = true → P sd)
    (map : ∀ es, PM es → P (.map es))
    (array : ∀ es, PA es → P (.array es))
    (mnil : PM [])
    (mcons : ∀ k v rest, P v → PM rest → PM ((k, v) :: rest))
    (anil : PA [])
    (acons : ∀ e rest, P e → PA rest → PA (e :: rest)) :
    (∀ sd, P sd) ∧ (∀ es, PM es) ∧ (∀ es, PA es) := by
  have h : ∀ sd, P sd := by
    intro sd
    refine LLSD.rec (motive_1 := P) (motive_2 := PM) (motive_3 := PA)
      (motive_4 := fun kv => P kv.2) ?_ ?_ ?_ ?_ ?_ ?_ ?_ ?_ ?_ ?_ ?_ ?_ ?_ ?_ ?_ sd
    · exact leaf _ rfl
    · intro b; exact leaf _ rfl
    · intro b; exact leaf _ rfl
    · intro b; exact leaf _ rfl
    · intro b; exact leaf _ rfl
    · intro b; exact leaf _ rfl
    · intro b; exact leaf _ rfl
    · intro b; exact leaf _ rfl
    · intro es h; exact map es h
    · intro es h; exact array es h
    · exact mnil
    · intro hd tl h1 h2; exact mcons hd.1 hd.2 tl h1 h2
    · exact anil
    · intro hd tl h1 h2; exact acons hd tl h1 h2
    · intro k v h; exact h
  refine ⟨h, ?_, ?_⟩
  · intro es
    induction es with
    | nil => exact mnil
    | cons hd tl ih => exact mcons hd.1 hd.2 tl (h _) ih
  · intro es
    induction es with
    | nil => exact anil
    | cons hd tl ih => exact acons hd tl (h _) ih

/-! ## Steps of the walk -/

theorem readSDValues_leaf {β : Type} (blk : BaseBlock β) (sd : LLSD) (h : sd.isLeaf = true)
    (st : ReadState β) : readSDValues blk sd st = some (submitLeaf blk sd st) := by
  cases sd <;> first | rfl | simp [LLSD.isLeaf, LLSD.isMap, LLSD.isArray] at h

theorem routes_leaf (sd : LLSD) (h : sd.isLeaf = true) : routes sd = [([], sd)] := by
  cases sd <;> first | rfl | simp [LLSD.isLeaf, LLSD.isMap, LLSD.isArray] at h

theorem leaves_leaf (sd : LLSD) (h : sd.isLeaf = true) : leaves sd = [sd] := by
  cases sd <;> first | rfl | simp [LLSD.isLeaf, LLSD.isMap, LLSD.isArray] at h

theorem mapDepths_leaf (sd : LLSD) (h : sd.isLeaf = true) : mapDepths sd = [0] := by
  cases sd <;> first | rfl | simp [LLSD.isLeaf, LLSD.isMap, LLSD.isArray] at h

theorem genCount_leaf (sd : LLSD) (h : sd.isLeaf = true) : genCount sd = 0 := by
  cases sd <;> first | rfl | simp [LLSD.isLeaf, LLSD.isMap, LLSD.isArray] at h

theorem setBackGeneration_nil (g : Nat) : setBackGeneration [] g = none := rfl

theorem setBackGeneration_concat (ns : name_stack_t) (k : String) (g0 g : Nat) :
    setBackGeneration (ns ++ [(k, g0)]) g = some (ns ++ [(k, g)]) := by
  simp [setBackGeneration]

theorem updateGeneration_nil {β : Type} (st : ReadState β)
    (h : st.parser.mNameStack = []) : updateGeneration st = none := by
  simp [updateGeneration, newParseGeneration, h, setBackGeneration]

theorem updateGeneration_concat {β : Type} (st : ReadState β) (ns : name_stack_t)
    (k : String) (g0 : Nat) (h : st.parser.mNameStack = ns ++ [(k, g0)]) :
    updateGeneration st = some { st with parser :=
      { st.parser with mParseGeneration := st.parser.mParseGeneration + 1
                       mNameStack := ns ++ [(k, st.parser.mParseGeneration + 1)] } } := by
  simp [updateGeneration, newParseGeneration, h, setBackGeneration]

theorem lastCursor_nil (d : Option LLSD) : lastCursor [] d = d := rfl

theorem lastCursor_append (rs1 rs2 : List (List String × LLSD)) (d : Option LLSD) :
    lastCursor (rs1 ++ rs2) d = lastCursor rs2 (lastCursor rs1 d) := by
  rcases List.eq_nil_or_concat rs2 with h | ⟨l, b, h⟩
  · subst h; simp [lastCursor]
  · subst h
    simp [lastCursor, ← List.append_assoc]

/-! ## What one walk does to the state -/

theorem WalkFacts.refl {β : Type} (st : ReadState β) : WalkFacts 0 [] st st :=
  ⟨rfl, rfl, rfl, rfl, rfl, rfl, [], by simp, by simp⟩

theorem WalkFacts.trans {β : Type} {n1 n2 : Nat} {rs1 rs2 : List (List String × LLSD)}
    {a b c : ReadState β} (h1 : WalkFacts n1 rs1 a b) (h2 : WalkFacts n2 rs2 b c) :
    WalkFacts (n1 + n2) (rs1 ++ rs2) a c := by
  obtain ⟨new1, e1, v1⟩ := h1.calls
  obtain ⟨new2, e2, v2⟩ := h2.calls
  refine ⟨h2.stack_init.trans h1.stack_init, h2.stack_keys.trans h1.stack_keys, ?_,
    h2.write_root.trans h1.write_root, h2.silent.trans h1.silent, ?_, new1 ++ new2, ?_, ?_⟩
  · rw [h2.counter, h1.counter]; omega
  · rw [h2.cursor, h1.cursor, lastCursor_append]
  · rw [e2, e1, List.append_assoc]
  · rw [List.map_append, List.map_append, v1, v2, h1.stack_keys]

theorem WalkFacts.leaf {β : Type} (blk : BaseBlock β) (sd : LLSD) (st : ReadState β) :
    WalkFacts 0 [([], sd)] st (submitLeaf blk sd st) :=
  ⟨rfl, rfl, rfl, rfl, rfl, rfl, _, rfl, by simp [SubmitCall.view]⟩

theorem WalkFacts.entry {β : Type} {n : Nat} {rs : List (List String × LLSD)}
    (key : String) {st st1 : ReadState β} (h : WalkFacts n rs (pushSegment key st) st1) :
    WalkFacts (1 + n) (rs.map (fun r => (key :: r.1, r.2))) st (popSegment st1) ∧
      (popSegment st1).parser.mNameStack = st.parser.mNameStack := by
  have hs : (popSegment st1).parser.mNameStack = st.parser.mNameStack := by
    have := h.stack_init
    simp [pushSegment, newParseGeneration] at this
    simpa [popSegment] using this
  obtain ⟨new, e, v⟩ := h.calls
  refine ⟨⟨by rw [hs], by rw [hs], ?_, ?_, ?_, ?_, new, ?_, ?_⟩, hs⟩
  · have := h.counter
    simp [pushSegment, newParseGeneration] at this
    simp [popSegment, this]; omega
  · simpa [popSegment, pushSegment, newParseGeneration] using h.write_root
  · simpa [popSegment, pushSegment, newParseGeneration] using h.silent
  · have := h.cursor
    simp [pushSegment, newParseGeneration] at this
    simp only [popSegment, this, lastCursor, List.getLast?_map]
    cases rs.getLast? <;> rfl
  · simpa [popSegment, pushSegment] using e
  · rw [v]
    simp [pushSegment, newParseGeneration, pathKeys, List.map_map, Function.comp_def]

theorem WalkFacts.update {β : Type} (st : ReadState β) (h : st.parser.mNameStack ≠ []) :
    ∃ st1, updateGeneration st = some st1 ∧ WalkFacts 1 [] st st1 := by
  rcases List.eq_nil_or_concat st.parser.mNameStack with h0 | ⟨ns, seg, h1⟩
  · exact absurd h0 h
  · obtain ⟨k, g0⟩ := seg
    rw [List.concat_eq_append] at h1
    refine ⟨_, updateGeneration_concat st ns k g0 h1, ?_⟩
    refine ⟨by simp [h1], by simp [h1, pathKeys], rfl, rfl, rfl, rfl, [], by simp, by simp⟩

theorem WalkFacts.stack_ne_nil {β : Type} {n : Nat} {rs : List (List String × LLSD)}
    {st st1 : ReadState β} (h : WalkFacts n rs st st1) (hne : st.parser.mNameStack ≠ []) :
    st1.parser.mNameStack ≠ [] := by
  intro h0
  have := h.stack_keys
  rw [h0] at this
  simp [pathKeys] at this
  exact hne this

/-- The walk of a tree: it has a result whenever the path is not empty or the tree
is not an array with elements, and then its effect is the one of `WalkFacts` for
the generations and routes of the tree. -/
theorem readSDValues_facts {β : Type} (blk : BaseBlock β) :
    (∀ sd (st : ReadState β), (st.parser.mNameStack ≠ [] ∨ sd.isNonEmptyArray = false) →
      ∃ st1, readSDValues blk sd st = some st1 ∧ WalkFacts (genCount sd) (routes sd) st st1) ∧
    (∀ es (st : ReadState β),
      ∃ st1, readSDMap blk es st = some st1 ∧ WalkFacts (genCountMap es) (routesMap es) st st1) ∧
    (∀ es (st : ReadState β), st.parser.mNameStack ≠ [] →
      ∃ st1, readSDArray blk es st = some st1 ∧
        WalkFacts (genCountArray es) (routesArray es) st st1) := by
  apply LLSD.induction3
  · intro sd hl st _
    refine ⟨_, readSDValues_leaf blk sd hl st, ?_⟩
    rw [genCount_leaf sd hl, routes_leaf sd hl]
    exact WalkFacts.leaf blk sd st
  · intro es ih st _
    simpa [readSDValues, genCount, routes] using ih st
  · intro es ih st h
    cases es with
    | nil => exact ⟨st, rfl, WalkFacts.refl st⟩
    | cons e rest =>
      rcases h with h | h
      · simpa [readSDValues, genCount, routes] using ih st h
      · simp [LLSD.isNonEmptyArray] at h
  · intro st
    exact ⟨st, rfl, WalkFacts.refl st⟩
  · intro k v rest ihv ihrest st
    obtain ⟨st1, e1, f1⟩ := ihv (pushSegment k st)
      (Or.inl (by simp [pushSegment, newParseGeneration]))
    obtain ⟨st2, e2, f2⟩ := ihrest (popSegment st1)
    refine ⟨st2, by simp [readSDMap, e1, e2], ?_⟩
    have := (WalkFacts.entry k f1).1.trans f2
    simpa [genCountMap, routesMap, Nat.add_assoc] using this
  · intro st _
    exact ⟨st, rfl, WalkFacts.refl st⟩
  · intro e rest ihe ihrest st hne
    obtain ⟨st1, e1, f1⟩ := WalkFacts.update st hne
    obtain ⟨st2, e2, f2⟩ := ihe st1 (Or.inl (f1.stack_ne_nil hne))
    obtain ⟨st3, e3, f3⟩ := ihrest st2 (f2.stack_ne_nil (f1.stack_ne_nil hne))
    refine ⟨st3, by simp [readSDArray, e1, e2, e3], ?_⟩
    have := (f1.trans f2).trans f3
    simpa [genCountArray, routesArray, Nat.add_assoc] using this

/-! ## Two walks of one tree from states that differ by a shift of generations -/

theorem shiftStack_zero (ns : name_stack_t) : shiftStack 0 ns = ns := by
  simp [shiftStack]

theorem shiftCall_zero (c : SubmitCall) : shiftCall 0 c = c := by
  simp [shiftCall, shiftStack_zero]

theorem pathKeys_shiftStack (d : Nat) (ns : name_stack_t) :
    pathKeys (shiftStack d ns) = pathKeys ns := by
  simp [pathKeys, shiftStack, List.map_map, Function.comp_def]

theorem shifted_leaf {β1 β2 : Type} (blk1 : BaseBlock β1) (blk2 : BaseBlock β2) {d : Nat}
    (sd : LLSD) {s1 : ReadState β1} {s2 : ReadState β2} (h : Shifted d s1 s2) :
    Shifted d (submitLeaf blk1 sd s1) (submitLeaf blk2 sd s2) :=
  ⟨h.stack, h.counter, rfl, by simp [submitLeaf, h.calls, h.stack, shiftCall]⟩

theorem shifted_push {β1 β2 : Type} {d : Nat} (key : String)
    {s1 : ReadState β1} {s2 : ReadState β2} (h : Shifted d s1 s2) :
    Shifted d (pushSegment key s1) (pushSegment key s2) := by
  refine ⟨?_, ?_, h.cursor, h.calls⟩
  · simp [pushSegment, newParseGeneration, h.stack, h.counter, shiftStack]; omega
  · simp [pushSegment, newParseGeneration, h.counter]; omega

theorem shifted_pop {β1 β2 : Type} {d : Nat}
    {s1 : ReadState β1} {s2 : ReadState β2} (h : Shifted d s1 s2) :
    Shifted d (popSegment s1) (popSegment s2) := by
  refine ⟨?_, h.counter, h.cursor, h.calls⟩
  simp [popSegment, h.stack, shiftStack, List.map_dropLast]

theorem shifted_update {β1 β2 : Type} {d : Nat}
    {s1 : ReadState β1} {s2 : ReadState β2} (h : Shifted d s1 s2) :
    OptionRel (Shifted d) (updateGeneration s1) (updateGeneration s2) := by
  rcases List.eq_nil_or_concat s1.parser.mNameStack with h0 | ⟨ns, seg, h1⟩
  · have h2 : s2.parser.mNameStack = [] := by rw [h.stack, h0]; rfl
    rw [updateGeneration_nil s1 h0, updateGeneration_nil s2 h2]
    trivial
  · obtain ⟨k, g0⟩ := seg
    rw [List.concat_eq_append] at h1
    have h2 : s2.parser.mNameStack = shiftStack d ns ++ [(k, g0 + d)] := by
      rw [h.stack, h1]; simp [shiftStack]
    rw [updateGeneration_concat s1 ns k g0 h1, updateGeneration_concat s2 _ k _ h2]
    refine ⟨?_, ?_, h.cursor, h.calls⟩
    · simp [shiftStack, h.counter]; omega
    · simp [h.counter]; omega

/-- Walks of one tree from two shifted states, over any two blocks, both have no
result or both have one, and the results are shifted by the same amount. -/
theorem readSDValues_shifted {β1 β2 : Type} (blk1 : BaseBlock β1) (blk2 : BaseBlock β2)
    (d : Nat) :
    (∀ sd (s1 : ReadState β1) (s2 : ReadState β2), Shifted d s1 s2 →
      OptionRel (Shifted d) (readSDValues blk1 sd s1) (readSDValues blk2 sd s2)) ∧
    (∀ es (s1 : ReadState β1) (s2 : ReadState β2), Shifted d s1 s2 →
      OptionRel (Shifted d) (readSDMap blk1 es s1) (readSDMap blk2 es s2)) ∧
    (∀ es (s1 : ReadState β1) (s2 : ReadState β2), Shifted d s1 s2 →
      OptionRel (Shifted d) (readSDArray blk1 es s1) (readSDArray blk2 es s2)) := by
  apply LLSD.induction3
  · intro sd hl s1 s2 h
    rw [readSDValues_leaf blk1 sd hl, readSDValues_leaf blk2 sd hl]
    exact shifted_leaf blk1 blk2 sd h
  · intro es ih s1 s2 h
    simpa [readSDValues] using ih s1 s2 h
  · intro es ih s1 s2 h
    simpa [readSDValues] using ih s1 s2 h
  · intro s1 s2 h
    exact h
  · intro k v rest ihv ihrest s1 s2 h
    have hv := ihv _ _ (shifted_push k h)
    simp only [readSDMap]
    cases e1 : readSDValues blk1 v (pushSegment k s1) <;>
      cases e2 : readSDValues blk2 v (pushSegment k s2) <;>
      rw [e1, e2] at hv <;> simp only [OptionRel] at hv ⊢
    exact ihrest _ _ (shifted_pop hv)
  · intro s1 s2 h
    exact h
  · intro e rest ihe ihrest s1 s2 h
    have hu := shifted_update h
    simp only [readSDArray]
    cases u1 : updateGeneration s1 <;> cases u2 : updateGeneration s2 <;>
      rw [u1, u2] at hu <;> simp only [OptionRel] at hu ⊢
    rename_i a1 a2
    have hv := ihe _ _ hu
    cases e1 : readSDValues blk1 e a1 <;> cases e2 : readSDValues blk2 e a2 <;>
      rw [e1, e2] at hv <;> simp only [OptionRel] at hv ⊢
    exact ihrest _ _ hv

/-! ## The loops, cut at a position -/

theorem readSDMap_append {β : Type} (blk : BaseBlock β) (a b : List (String × LLSD))
    (st : ReadState β) :
    readSDMap blk (a ++ b) st = (readSDMap blk a st).bind (readSDMap blk b) := by
  induction a generalizing st with
  | nil => rfl
  | cons hd tl ih =>
    obtain ⟨k, v⟩ := hd
    simp only [List.cons_append, readSDMap, List.append_eq]
    cases readSDValues blk v (pushSegment k st) with
    | none => rfl
    | some s1 => exact ih _

theorem readSDArray_append {β : Type} (blk : BaseBlock β) (a b : List LLSD)
    (st : ReadState β) :
    readSDArray blk (a ++ b) st = (readSDArray blk a st).bind (readSDArray blk b) := by
  induction a generalizing st with
  | nil => rfl
  | cons hd tl ih =>
    simp only [List.cons_append, readSDArray, List.append_eq]
    cases updateGeneration st with
    | none => rfl
    | some s1 =>
      simp only []
      cases readSDValues blk hd s1 with
      | none => rfl
      | some s2 => exact ih _

/-- The loop over a map reaches entry `i` in the state `stateAtEntry` names: the
whole loop is the loop over the entries before `i` followed by the loop from `i`. -/
theorem readSDMap_from_stateAtEntry {β : Type} (blk : BaseBlock β)
    (entries : List (String × LLSD)) (st : ReadState β) (i : Nat) :
    readSDMap blk entries st =
      (stateAtEntry blk entries st i).bind (readSDMap blk (entries.drop i)) := by
  rw [stateAtEntry, ← readSDMap_append, List.take_append_drop]

/-- The loop over an array reaches element `i` in the state `stateAtElement` names. -/
theorem readSDArray_from_stateAtElement {β : Type} (blk : BaseBlock β)
    (elems : List LLSD) (st : ReadState β) (i : Nat) :
    readSDArray blk elems st =
      (stateAtElement blk elems st i).bind (readSDArray blk (elems.drop i)) := by
  rw [stateAtElement, ← readSDArray_append, List.take_append_drop]

/-- The loop over a map walks the value of entry `i` in the state `stateInEntry`
names and goes on with the entries after it. -/
theorem readSDMap_through_entry {β : Type} (blk : BaseBlock β)
    (entries : List (String × LLSD)) (st : ReadState β) (i : Nat) (key : String)
    (value : LLSD) (h : entries[i]? = some (key, value)) :
    readSDMap blk entries st =
      (stateInEntry blk entries st i).bind (fun s =>
        (readSDValues blk value s).bind (fun s1 =>
          readSDMap blk (entries.drop (i + 1)) (popSegment s1))) := by
  have hd : entries.drop i = (key, value) :: entries.drop (i + 1) := by
    have hi : i < entries.length := by
      by_contra hge
      rw [List.getElem?_eq_none (Nat.le_of_not_lt hge)] at h
      cases h
    rw [List.getElem?_eq_getElem hi] at h
    rw [List.drop_eq_getElem_cons hi, Option.some.inj h]
  rw [readSDMap_from_stateAtEntry blk entries st i, hd, stateInEntry, h]
  cases stateAtEntry blk entries st i with
  | none => rfl
  | some s =>
    simp only [Option.bind, readSDMap]
    cases readSDValues blk value (pushSegment key s) <;> rfl

/-- The loop over an array walks element `i` in the state `stateInElement` names
and goes on with the elements after it. -/
theorem readSDArray_through_element {β : Type} (blk : BaseBlock β)
    (elems : List LLSD) (st : ReadState β) (i : Nat) (elem : LLSD)
    (h : elems[i]? = some elem) :
    readSDArray blk elems st =
      (stateInElement blk elems st i).bind (fun s =>
        (readSDValues blk elem s).bind (readSDArray blk (elems.drop (i + 1)))) := by
  have hd : elems.drop i = elem :: elems.drop (i + 1) := by
    have hi : i < elems.length := by
      by_contra hge
      rw [List.getElem?_eq_none (Nat.le_of_not_lt hge)] at h
      cases h
    rw [List.getElem?_eq_getElem hi] at h
    rw [List.drop_eq_getElem_cons hi, Option.some.inj h]
  rw [readSDArray_from_stateAtElement blk elems st i, hd, stateInElement]
  cases stateAtElement blk elems st i with
  | none => rfl
  | some s =>
    simp only [Option.bind, readSDArray]
    cases updateGeneration s with
    | none => rfl
    | some s1 =>
      simp only []
      cases readSDValues blk elem s1 <;> rfl

theorem readSDInit_stack {β : Type} (silent : Bool) (p : LLParamSDParser) (block : β) :
    (readSDInit silent p block).parser.mNameStack = [] := rfl

/-- A root array with an element: the first update of line 115 meets the empty
path, and the read has no defined result. -/
theorem readSD_nonEmptyArray {β : Type} (blk : BaseBlock β) (e : LLSD) (rest : List LLSD)
    (silent : Bool) (p : LLParamSDParser) (block : β) :
    readSD blk (.array (e :: rest)) silent p block = none := by
  simp [readSD, readSDValues, readSDArray, updateGeneration_nil _ (readSDInit_stack silent p block)]

/-- Every other tree: the read has a result, with the effect of `WalkFacts`. -/
theorem readSD_facts {β : Type} (blk : BaseBlock β) (sd : LLSD) (silent : Bool)
    (p : LLParamSDParser) (block : β) (h : sd.isNonEmptyArray = false) :
    ∃ st1, readSD blk sd silent p block = some st1 ∧
      WalkFacts (genCount sd) (routes sd) (readSDInit silent p block) st1 :=
  (readSDValues_facts blk).1 sd _ (Or.inr h)

theorem isNonEmptyArray_cases (sd : LLSD) :
    sd.isNonEmptyArray = false ∨ ∃ e rest, sd = .array (e :: rest) := by
  cases sd with
  | array es =>
    cases es with
    | nil => exact Or.inl rfl
    | cons e rest => exact Or.inr ⟨e, rest, rfl⟩
  | _ => exact Or.inl rfl

theorem routes_snd :
    (∀ sd, (routes sd).map Prod.snd = leaves sd) ∧
    (∀ es, (routesMap es).map Prod.snd = leavesMap es) ∧
    (∀ es, (routesArray es).map Prod.snd = leavesArray es) := by
  apply LLSD.induction3
  · intro sd hl
    rw [routes_leaf sd hl, leaves_leaf sd hl]; rfl
  · intro es ih; simpa [routes, leaves] using ih
  · intro es ih; simpa [routes, leaves] using ih
  · rfl
  · intro k v rest ihv ihrest
    simp [routesMap, leavesMap, List.map_map, Function.comp_def, ← ihv, ← ihrest]
  · rfl
  · intro e rest ihe ihrest
    simp [routesArray, leavesArray, ← ihe, ← ihrest]

theorem routes_depths :
    (∀ sd, (routes sd).map (fun r => r.1.length) = mapDepths sd) ∧
    (∀ es, (routesMap es).map (fun r => r.1.length) = (mapDepthsMap es).map (· + 1)) ∧
    (∀ es, (routesArray es).map (fun r => r.1.length) = mapDepthsArray es) := by
  apply LLSD.induction3
  · intro sd hl
    rw [routes_leaf sd hl, mapDepths_leaf sd hl]; rfl
  · intro es ih; simpa [routes, mapDepths] using ih
  · intro es ih; simpa [routes, mapDepths] using ih
  · rfl
  · intro k v rest ihv ihrest
    simp [routesMap, mapDepthsMap, List.map_map, Function.comp_def, ← ihv, ihrest]
  · rfl
  · intro e rest ihe ihrest
    simp [routesArray, mapDepthsArray, ← ihe, ← ihrest]

theorem lastCursor_none (rs : List (List String × LLSD)) :
    lastCursor rs none = (rs.map Prod.snd).getLast? := by
  simp only [lastCursor, List.getLast?_map]
  cases rs.getLast? <;> rfl

/-- The cursors of the calls of a read are the leaves of the tree in depth-first
order, each call with the cursor bound to its leaf; a root array with an element
has no defined read. -/
theorem readSD_cursors {β : Type} (blk : BaseBlock β) (sd : LLSD) (silent : Bool)
    (p : LLParamSDParser) (block : β) :
    (readSD blk sd silent p block).map (fun s => s.calls.map SubmitCall.cursor) =
      if sd.isNonEmptyArray then none else some ((leaves sd).map some) := by
  rcases isNonEmptyArray_cases sd with h | ⟨e, rest, h⟩
  · obtain ⟨st1, e1, f⟩ := readSD_facts blk sd silent p block h
    obtain ⟨new, en, ev⟩ := f.calls
    have hc : st1.calls.map SubmitCall.cursor = (leaves sd).map some := by
      have h2 := congrArg (List.map Prod.snd) ev
      simp only [List.map_map] at h2
      rw [en, ← routes_snd.1 sd]
      simpa [readSDInit, Function.comp_def, SubmitCall.view] using h2
    simp [e1, h, hc]
  · subst h
    simp [readSD_nonEmptyArray, LLSD.isNonEmptyArray]

/-- The calls of a read, and whether it has a result at all, do not depend on the
block or on what `submitValue` answers. -/
theorem readSD_calls_independent {β1 β2 : Type} (blk1 : BaseBlock β1) (blk2 : BaseBlock β2)
    (sd : LLSD) (silent : Bool) (p : LLParamSDParser) (b1 : β1) (b2 : β2) :
    (readSD blk1 sd silent p b1).map (fun s => s.calls) =
      (readSD blk2 sd silent p b2).map (fun s => s.calls) := by
  have hinit : Shifted 0 (readSDInit silent p b1) (readSDInit silent p b2) :=
    ⟨rfl, rfl, rfl, rfl⟩
  have h := (readSDValues_shifted blk1 blk2 0).1 sd _ _ hinit
  unfold readSD
  cases e1 : readSDValues blk1 sd (readSDInit silent p b1) <;>
    cases e2 : readSDValues blk2 sd (readSDInit silent p b2) <;>
    rw [e1, e2] at h <;> simp only [OptionRel] at h
  · rfl
  · have hz : shiftCall 0 = id := funext shiftCall_zero
    simp [h.calls, hz]

/-! ## The claims -/

/-- C1, at the failing input: for the root array holding the single integer 1, the
first statement of the array loop is `mNameStack.back()` on the path `readSD` has
just cleared. The read has no defined result, for every block, so the one call the
claim asks for (cursor 1) is not made by any defined run. -/
theorem readSD_root_array_one_undefined {β : Type} (blk : BaseBlock β) (silent : Bool)
    (p : LLParamSDParser) (block : β) :
    readSD blk (.array [.integer 1]) silent p block = none :=
  readSD_nonEmptyArray blk _ _ silent p block

/-- C2: for every tree whose root is not an array with elements (so for every root
that is a map, a scalar or null), `readSD` has a result, and its calls are, in
order, one per leaf of the tree with the cursor on that leaf and with path keys
equal to the map keys on the route from the root to the leaf; the length of each
path is the number of map nodes on that route. -/
theorem readSD_path_is_route {β : Type} (blk : BaseBlock β) (sd : LLSD) (silent : Bool)
    (p : LLParamSDParser) (block : β) (h : sd.isNonEmptyArray = false) :
    ∃ st1, readSD blk sd silent p block = some st1 ∧
      st1.calls.map SubmitCall.view = (routes sd).map (fun r => (r.1, some r.2)) ∧
      st1.calls.map (fun c => c.name_stack.length) = mapDepths sd := by
  obtain ⟨st1, e1, f⟩ := readSD_facts blk sd silent p block h
  obtain ⟨new, en, ev⟩ := f.calls
  have hv : st1.calls.map SubmitCall.view = (routes sd).map (fun r => (r.1, some r.2)) := by
    have hn : st1.calls = new := by simpa [readSDInit] using en
    rw [hn, ev]
    simp [readSDInit, setParseSilently, pathKeys]
  refine ⟨st1, e1, hv, ?_⟩
  have h2 := congrArg (List.map (fun v : List String × Option LLSD => v.1.length)) hv
  simp only [List.map_map] at h2
  rw [← routes_depths.1 sd]
  simpa [Function.comp_def, SubmitCall.view, pathKeys] using h2

/-- C2 at the tree of the scenario: a map with a scalar and an array of scalars. -/
theorem readSD_path_is_route_witness :
    scenarioTree.isNonEmptyArray = false ∧
    ∃ st1, readSD nullBlock scenarioTree false freshParser () = some st1 ∧
      st1.calls.map SubmitCall.view =
        (routes scenarioTree).map (fun r => (r.1, some r.2)) ∧
      st1.calls.map (fun c => c.name_stack.length) = mapDepths scenarioTree :=
  ⟨rfl, readSD_path_is_route nullBlock scenarioTree false freshParser () rfl⟩

theorem toS32_of_u32 (v : Nat) (hv : v < 2 ^ 32) :
    toS32 v = if v ≤ 2 ^ 31 - 1 then (v : Int) else (v : Int) - 2 ^ 32 := by
  unfold toS32
  norm_num at hv ⊢
  split <;> omega

theorem toU32_toS32 (v : Nat) (hv : v < 2 ^ 32) : toU32 (toS32 v) = v := by
  unfold toU32 toS32
  norm_num at hv ⊢
  omega

theorem toS32_two_pow_31 : toS32 (2147483648 : Nat) = -2147483648 := by
  rw [toS32_of_u32 _ (by norm_num)]
  norm_num

theorem toS32_five : toS32 (5 : Nat) = 5 := by
  rw [toS32_of_u32 _ (by norm_num)]
  norm_num

theorem writeNode_bound (p : LLParamSDParser) (root v : LLSD) (ns : name_stack_t) :
    writeNode { p with mWriteSD := some root } v ns = (true, { p with mWriteSD := some v }) := by
  simp [writeNode, getSDWriteNode, LLSD.assignAt]

theorem writeValue_bound (p : LLParamSDParser) (root : LLSD) (val : ParamValue)
    (ns : name_stack_t) :
    writeValue { p with mWriteSD := some root } val ns =
      (true, { p with mWriteSD := some (emitted val) }) := by
  cases val <;> simp [writeValue, writeU32Param, writeTypedValue, writeNode_bound, emitted]

theorem bound_eq (p : LLParamSDParser) (root : LLSD) (h : p.mWriteSD = some root) :
    p = { p with mWriteSD := some root } := by
  cases p
  simp_all

theorem readTypedValue_some {T : Type} (p : LLParamSDParser) (conv : LLSD → T) (slot : T)
    (sd : LLSD) (h : p.mCurReadSD = some sd) : readTypedValue p conv slot = (true, conv sd) := by
  unfold readTypedValue
  rw [h]

theorem asInteger_integer (cv : SDConversions) (i : Int) : asInteger cv (.integer i) = i := rfl

/-- C5, counterexample: a top-level unsigned field "a" with value 5, written at the
path of depth one into the empty map, leaves the integer 5 as the whole output
tree; the tree has no entry "a", so the field is not stored under its own key. -/
theorem top_level_field_not_under_key :
    (writeU32Param (boundParser (.map [])) 5 [("a", 0)]).2.mWriteSD = some (.integer 5) ∧
    ¬ (((writeU32Param (boundParser (.map [])) 5 [("a", 0)]).2.mWriteSD).bind
        (fun tree => tree.member "a") = some (.integer 5)) := by
  have h : (writeU32Param (boundParser (.map [])) 5 [("a", 0)]).2.mWriteSD
      = some (.integer 5) := by
    have hw := writeNode_bound (boundParser (.map [])) (.map []) (.integer (toS32 (5 : Nat)))
      [("a", 0)]
    rw [toS32_five] at hw
    simp only [writeU32Param, toS32_five]
    exact congrArg (fun r => r.2.mWriteSD) hw
  refine ⟨h, ?_⟩
  rw [h]
  intro h2
  exact Option.noConfusion h2

/-- C5 as amended: the node lookup does not look at the path. With an output root
bound it returns that root for every path, of depth one as of any other depth, and
the unsigned writer then replaces the whole output tree by the emitted integer and
reports success. -/
theorem getSDWriteNode_ignores_path (p : LLParamSDParser) (root : LLSD)
    (name_stack : name_stack_t) (v : Nat) :
    getSDWriteNode p name_stack = getSDWriteNode p [] ∧
    getSDWriteNode { p with mWriteSD := some root } name_stack = some [] ∧
    writeU32Param { p with mWriteSD := some root } v name_stack =
      (true, { p with mWriteSD := some (.integer (toS32 v)) }) :=
  ⟨rfl, rfl, writeNode_bound p root _ name_stack⟩

/-- C6: with an output root bound, `writeU32Param` on a 32-bit unsigned `v` returns
true and leaves as output the integer `v` when `v` is at most 2^31 - 1 and the
integer `v - 2^32` otherwise. -/
theorem writeU32Param_emits_signed (p : LLParamSDParser) (root : LLSD)
    (name_stack : name_stack_t) (v : Nat) (hb : p.mWriteSD = some root) (hv : v < 2 ^ 32) :
    writeU32Param p v name_stack = (true, { p with
      mWriteSD := some (.integer (if v ≤ 2 ^ 31 - 1 then (v : Int) else (v : Int) - 2 ^ 32)) }) := by
  rw [← toS32_of_u32 v hv]
  conv_lhs => rw [bound_eq p root hb]
  exact writeNode_bound p root _ name_stack

/-- C6 at the largest unsigned value, written into a bound null tree. -/
theorem writeU32Param_emits_signed_witness :
    (boundParser LLSD.undef).mWriteSD = some LLSD.undef ∧
    4294967295 < 2 ^ 32 ∧
    writeU32Param (boundParser LLSD.undef) 4294967295 [("a", 0)] = (true, { boundParser LLSD.undef with
      mWriteSD := some (.integer (if 4294967295 ≤ 2 ^ 31 - 1 then ((4294967295 : Nat) : Int)
        else ((4294967295 : Nat) : Int) - 2 ^ 32)) }) :=
  ⟨rfl, by norm_num,
    writeU32Param_emits_signed (boundParser LLSD.undef) LLSD.undef [("a", 0)] 4294967295 rfl
      (by norm_num)⟩

/-- C7, counterexample: the unsigned value 2^31 is emitted as the integer -2^31,
and the unsigned reader applied to that integer gives back 2^31: the value read
back does not differ from the value written. -/
theorem u32_above_signed_range_reads_back :
    (writeU32Param (boundParser LLSD.undef) 2147483648 []).2.mWriteSD
      = some (.integer (-2147483648)) ∧
    ¬ ((readU32 zeroConversions
        { freshParser with mCurReadSD := some (.integer (-2147483648)) } 0).2 ≠ 2147483648) := by
  constructor
  · have hw := writeNode_bound (boundParser LLSD.undef) LLSD.undef
      (.integer (toS32 (2147483648 : Nat))) []
    rw [toS32_two_pow_31] at hw
    simp only [writeU32Param, toS32_two_pow_31]
    exact congrArg (fun r => r.2.mWriteSD) hw
  · intro h
    apply h
    unfold readU32
    rw [readTypedValue_some _ _ _ (.integer (-2147483648)) rfl, asInteger_integer,
      ← toS32_two_pow_31, toU32_toS32 _ (by norm_num)]

/-- C7 as amended: for every 32-bit unsigned `v`, the unsigned writer emits the
integer of the cast of `v`, which is `v - 2^32` (not `v`) when `v` is above
2^31 - 1, and the unsigned reader applied to the emitted integer succeeds and
gives back exactly `v`. -/
theorem u32_round_trip_exact (cv : SDConversions) (p q : LLParamSDParser) (root : LLSD)
    (name_stack : name_stack_t) (v slot : Nat) (hb : p.mWriteSD = some root)
    (hv : v < 2 ^ 32) :
    (writeU32Param p v name_stack).2.mWriteSD = some (.integer (toS32 v)) ∧
    (2 ^ 31 - 1 < v → toS32 v = (v : Int) - 2 ^ 32) ∧
    readU32 cv { q with mCurReadSD := (writeU32Param p v name_stack).2.mWriteSD } slot
      = (true, v) := by
  have hw : (writeU32Param p v name_stack).2.mWriteSD = some (.integer (toS32 v)) := by
    rw [bound_eq p root hb]
    simp only [writeU32Param, writeNode_bound]
  refine ⟨hw, ?_, ?_⟩
  · intro h
    have h2 : ¬ (v ≤ 2 ^ 31 - 1) := Nat.not_le_of_lt h
    rw [toS32_of_u32 v hv, if_neg h2]
  · rw [hw]
    unfold readU32
    rw [readTypedValue_some _ _ _ (.integer (toS32 v)) rfl, asInteger_integer,
      toU32_toS32 v hv]

/-- C7 as amended, at the value 2^31. -/
theorem u32_round_trip_exact_witness :
    (boundParser LLSD.undef).mWriteSD = some LLSD.undef ∧
    2147483648 < 2 ^ 32 ∧
    (writeU32Param (boundParser LLSD.undef) 2147483648 []).2.mWriteSD
      = some (.integer (toS32 (2147483648 : Nat))) ∧
    (2 ^ 31 - 1 < 2147483648 → toS32 (2147483648 : Nat) = ((2147483648 : Nat) : Int) - 2 ^ 32) ∧
    readU32 zeroConversions { freshParser with
      mCurReadSD := (writeU32Param (boundParser LLSD.undef) 2147483648 []).2.mWriteSD } 0
      = (true, 2147483648) :=
  ⟨rfl, by norm_num,
    u32_round_trip_exact zeroConversions (boundParser LLSD.undef) freshParser LLSD.undef []
      2147483648 0 rfl (by norm_num)⟩

/-! ### Failed leaves, the generation counter, the cursor -/

/-- C8, at the failing input: on the root array holding the single integer 1 the
read has no defined result, whether `submitValue` answers success or failure, so
it does not run to completion. -/
theorem readSD_root_array_never_completes (ok : Bool) (silent : Bool) (p : LLParamSDParser) :
    (readSD (constBlock ok) (.array [.integer 1]) silent p ()).isSome = false := by
  rw [readSD_nonEmptyArray]
  rfl

/-- C9, counterexample: two successive reads of the map with "a" bound to 5, on a
parser whose counter is at 0. The first presents the path with generation 1, the
second the path with generation 2: the generations are not identical. -/
theorem second_read_continues_counter :
    ∃ st1 st2,
      readSD nullBlock (.map [("a", .integer 5)]) false freshParser () = some st1 ∧
      readSD nullBlock (.map [("a", .integer 5)]) false st1.parser st1.block = some st2 ∧
      st1.calls.map (fun c => c.name_stack) = [[("a", 1)]] ∧
      st2.calls.map (fun c => c.name_stack) = [[("a", 2)]] ∧
      st1.calls.map (fun c => c.name_stack) ≠ st2.calls.map (fun c => c.name_stack) :=
  ⟨_, _, rfl, rfl, rfl, rfl, by decide⟩

/-- C9 as amended: `readSD` does not reset the generation counter. For every tree
that is not a root array with elements, a read advances the counter by the number
of generations it draws, and a second read on the same parser makes the calls of
the first, same keys, same cursors, same order, with every generation on every path
raised by that number. -/
theorem readSD_twice_shifts_generations {β : Type} (blk : BaseBlock β) (sd : LLSD)
    (silent silent2 : Bool) (p : LLParamSDParser) (block : β)
    (h : sd.isNonEmptyArray = false) :
    ∃ st1 st2,
      readSD blk sd silent p block = some st1 ∧
      readSD blk sd silent2 st1.parser st1.block = some st2 ∧
      st1.parser.mParseGeneration = p.mParseGeneration + genCount sd ∧
      st2.calls = st1.calls.map (shiftCall (genCount sd)) := by
  obtain ⟨st1, e1, f⟩ := readSD_facts blk sd silent p block h
  have hc : st1.parser.mParseGeneration = p.mParseGeneration + genCount sd := f.counter
  have hinit : Shifted (genCount sd) (readSDInit silent p block)
      (readSDInit silent2 st1.parser st1.block) := ⟨rfl, hc, rfl, rfl⟩
  have hs := (readSDValues_shifted blk blk (genCount sd)).1 sd _ _ hinit
  unfold readSD at e1
  rw [e1] at hs
  cases e2 : readSDValues blk sd (readSDInit silent2 st1.parser st1.block) with
  | none => rw [e2] at hs; exact absurd hs (by simp [OptionRel])
  | some st2 =>
    rw [e2] at hs
    exact ⟨st1, st2, e1, e2, hc, hs.calls⟩

/-- C9 as amended, at the tree of the scenario. -/
theorem readSD_twice_shifts_generations_witness :
    scenarioTree.isNonEmptyArray = false ∧
    ∃ st1 st2,
      readSD nullBlock scenarioTree false freshParser () = some st1 ∧
      readSD nullBlock scenarioTree true st1.parser st1.block = some st2 ∧
      st1.parser.mParseGeneration = freshParser.mParseGeneration + genCount scenarioTree ∧
      st2.calls = st1.calls.map (shiftCall (genCount scenarioTree)) :=
  ⟨rfl, readSD_twice_shifts_generations nullBlock scenarioTree false true freshParser () rfl⟩

theorem runSerialization_cursor (s : Serialization) (p : LLParamSDParser) :
    (runSerialization s p).mCurReadSD = p.mCurReadSD := by
  induction s generalizing p with
  | done => rfl
  | write val ns next ih =>
    simp only [runSerialization]
    rw [ih]
    cases val <;>
      simp only [writeValue, writeU32Param, writeTypedValue, writeNode, getSDWriteNode] <;>
      cases p.mWriteSD <;> rfl

/-- C10, counterexample: after `readSD` of the scalar 5 has returned, the cursor is
still bound to that scalar; and `writeSD` on a parser whose cursor is bound leaves
it bound. -/
theorem cursor_left_bound :
    (∃ st1, readSD nullBlock (.integer 5) false freshParser () = some st1 ∧
      st1.parser.mCurReadSD = some (.integer 5) ∧ st1.parser.mCurReadSD ≠ none) ∧
    (writeSD nullBlock LLSD.undef () { freshParser with mCurReadSD := some (.integer 5) }).mCurReadSD
      ≠ none :=
  ⟨⟨_, rfl, rfl, fun h => Option.noConfusion h⟩, fun h => Option.noConfusion h⟩

/-- C10 as amended: the cursor is empty when the walk of `readSD` begins. When
`readSD` returns, the cursor is bound to the last leaf visited, and empty only if
the tree has no leaf (a root array with elements has no defined read). `writeSD`
neither clears nor binds the cursor: it is after the write what it was before. -/
theorem cursor_after_read_and_write {β : Type} (blk : BaseBlock β) (sd out : LLSD)
    (silent : Bool) (p : LLParamSDParser) (block : β) :
    (readSDInit silent p block).parser.mCurReadSD = none ∧
    (readSD blk sd silent p block).map (fun s => s.parser.mCurReadSD) =
      (if sd.isNonEmptyArray then none else some (leaves sd).getLast?) ∧
    (writeSD blk out block p).mCurReadSD = p.mCurReadSD := by
  refine ⟨rfl, ?_, ?_⟩
  · rcases isNonEmptyArray_cases sd with h | ⟨e, rest, h⟩
    · obtain ⟨st1, e1, f⟩ := readSD_facts blk sd silent p block h
      have hc : st1.parser.mCurReadSD = (leaves sd).getLast? := by
        rw [f.cursor, ← routes_snd.1 sd]
        exact lastCursor_none (routes sd)
      simp [e1, h, hc]
    · subst h
      simp [readSD_nonEmptyArray, LLSD.isNonEmptyArray]
  · unfold writeSD
    rw [runSerialization_cursor]

/-! ### Write, then read -/

theorem emitted_isLeaf (v : ParamValue) : (emitted v).isLeaf = true := by
  cases v <;> rfl

/-- The output tree after the fields of a flat block were serialized into a bound
tree: the emitted value of the last field that differs from its default, or the
tree as it was when every field is at its default. -/
theorem runSerialization_fields (fields : List Field) (p : LLParamSDParser) (tree : LLSD) :
    runSerialization (serializeFields fields) { p with mWriteSD := some tree } =
      { p with mWriteSD := some (match lastWritten fields with
                                 | some v => emitted v
                                 | none => tree) } := by
  induction fields generalizing tree with
  | nil => rfl
  | cons f rest ih =>
    by_cases hd : f.value = f.dflt
    · simp only [serializeFields, hd, if_true, lastWritten]
      rw [ih tree]
      cases lastWritten rest <;> rfl
    · simp only [serializeFields, hd, if_false, lastWritten, runSerialization]
      rw [writeValue_bound]
      have := ih (emitted f.value)
      simp only at this
      rw [this]
      cases lastWritten rest <;> rfl

/-- C4, counterexample: a block with the single signed field "a", default 0, value
5. `writeSD` into a null tree leaves the integer 5 as the output tree, and `readSD`
of that tree into a fresh block of the same shape makes one call at the empty path
and leaves the field at 0: the original value is not reproduced. -/
theorem flat_round_trip_fails :
    (writeSD (flatBlock zeroConversions) LLSD.undef [⟨"a", .s32 0, .s32 5⟩] freshParser).mWriteSD
      = some (.integer 5) ∧
    ∃ st, readSD (flatBlock zeroConversions) (.integer 5) false freshParser
        (freshFields [⟨"a", .s32 0, .s32 5⟩]) = some st ∧
      st.calls.map (fun c => c.name_stack) = [[]] ∧
      st.block = [⟨"a", .s32 0, .s32 0⟩] ∧
      st.block ≠ [⟨"a", .s32 0, .s32 5⟩] :=
  ⟨rfl, _, rfl, rfl, rfl, by decide⟩

/-- C4 as amended: take a block of top-level signed, unsigned, string, UUID, date
and URI fields of which at least one differs from its default, `v` being the value
of the last such field. `writeSD` leaves as the whole output tree the scalar
emitted for `v`, not a map of the fields; `readSD` of that tree into a fresh block
of the same shape makes exactly one call of `submitValue`, at the empty path with
the cursor on that scalar, and the fresh block is left as it was. -/
theorem flat_write_then_read (cv : SDConversions) (fields : List Field) (out : LLSD)
    (p p2 : LLParamSDParser) (silent : Bool) (v : ParamValue)
    (h : lastWritten fields = some v) :
    (writeSD (flatBlock cv) out fields p).mWriteSD = some (emitted v) ∧
    ∃ st, readSD (flatBlock cv) (emitted v) silent p2 (freshFields fields) = some st ∧
      st.calls = [{ name_stack := [], cursor := some (emitted v) }] ∧
      st.block = freshFields fields := by
  constructor
  · have := runSerialization_fields fields p out
    simp only [h] at this
    simp only [writeSD, flatBlock]
    rw [this]
  · refine ⟨_, readSDValues_leaf (flatBlock cv) (emitted v) (emitted_isLeaf v) _, rfl, rfl⟩

/-- C4 as amended, at a block with a signed field "a" of value 5 and an unsigned
field "b" of value 7. -/
theorem flat_write_then_read_witness :
    lastWritten [⟨"a", .s32 0, .s32 5⟩, ⟨"b", .u32 0, .u32 7⟩] = some (.u32 7) ∧
    (writeSD (flatBlock zeroConversions) LLSD.undef
      [⟨"a", .s32 0, .s32 5⟩, ⟨"b", .u32 0, .u32 7⟩] freshParser).mWriteSD
      = some (emitted (.u32 7)) ∧
    ∃ st, readSD (flatBlock zeroConversions) (emitted (.u32 7)) false freshParser
        (freshFields [⟨"a", .s32 0, .s32 5⟩, ⟨"b", .u32 0, .u32 7⟩]) = some st ∧
      st.calls = [{ name_stack := [], cursor := some (emitted (.u32 7)) }] ∧
      st.block = freshFields [⟨"a", .s32 0, .s32 5⟩, ⟨"b", .u32 0, .u32 7⟩] :=
  ⟨by decide,
    flat_write_then_read zeroConversions [⟨"a", .s32 0, .s32 5⟩, ⟨"b", .u32 0, .u32 7⟩]
      LLSD.undef freshParser freshParser false (.u32 7) (by decide)⟩

/-! ### The any-value reader -/

/-- C11: `readSDParam` returns true exactly when the cursor is bound; with the
cursor bound to a node the slot afterwards is that node, unchanged; with the cursor
empty it returns false and the slot is what it was. -/
theorem readSDParam_passthrough (p : LLParamSDParser) (slot sd : LLSD) :
    ((readSDParam p slot).1 = true ↔ p.mCurReadSD.isSome = true) ∧
    readSDParam { p with mCurReadSD := some sd } slot = (true, sd) ∧
    readSDParam { p with mCurReadSD := none } slot = (false, slot) := by
  refine ⟨?_, rfl, rfl⟩
  unfold readSDParam
  cases p.mCurReadSD <;> simp

/-! ### Last write wins -/

/-- With an output root bound, every writer invocation of a serialization returns
true. -/
theorem writeLog_ok (s : Serialization) (p : LLParamSDParser) (tree : LLSD) :
    ∀ c ∈ writeLog s { p with mWriteSD := some tree }, c.ok = true := by
  induction s generalizing tree with
  | done => intro c hc; cases hc
  | write val ns next ih =>
    intro c hc
    simp only [writeLog, writeValue_bound, List.mem_cons] at hc
    rcases hc with hc | hc
    · rw [hc]
    · exact ih true (emitted val) c hc

/-- With an output root bound, the output tree after a serialization is the value
emitted by its last writer invocation, or the tree as it was when there was none. -/
theorem runSerialization_last (s : Serialization) (p : LLParamSDParser) (tree : LLSD) :
    (runSerialization s { p with mWriteSD := some tree }).mWriteSD =
      some (match (writeLog s { p with mWriteSD := some tree }).getLast? with
            | some c => emitted c.val
            | none => tree) := by
  induction s generalizing tree with
  | done => rfl
  | write val ns next ih =>
    simp only [runSerialization, writeLog, writeValue_bound]
    rw [ih true (emitted val), List.getLast?_cons]
    cases (writeLog (next true) { p with mWriteSD := some (emitted val) }).getLast? <;> rfl

/-- C12: for every block whose serialization invokes writers only for unsigned
values, `vs` in order and at least one, at whatever paths: every invocation returns
true, and after `writeSD` the output tree is the integer of the cast of the last
value to `S32`. That tree is a single scalar: it is not a map, no key has an entry
in it, and it does not depend on the content of the tree before or on the earlier
values. -/
theorem last_u32_write_wins {β : Type} (blk : BaseBlock β) (block : β) (out : LLSD)
    (p : LLParamSDParser) (vs : List Nat) (hne : vs ≠ [])
    (hvs : (writeLog (blk.serializeBlock block) { p with mWriteSD := some out }).map
      (fun c => c.val) = vs.map ParamValue.u32) :
    (∀ c ∈ writeLog (blk.serializeBlock block) { p with mWriteSD := some out }, c.ok = true) ∧
    (writeSD blk out block p).mWriteSD = some (.integer (toS32 (vs.getLast hne))) ∧
    (LLSD.integer (toS32 (vs.getLast hne))).isMap = false ∧
    ∀ key, (LLSD.integer (toS32 (vs.getLast hne))).member key = none := by
  refine ⟨writeLog_ok _ p out, ?_, rfl, fun _ => rfl⟩
  have hlast := congrArg List.getLast? hvs
  rw [List.getLast?_map, List.getLast?_map, List.getLast?_eq_getLast vs hne] at hlast
  unfold writeSD
  rw [runSerialization_last]
  cases hl : (writeLog (blk.serializeBlock block) { p with mWriteSD := some out }).getLast? with
  | none => rw [hl] at hlast; cases hlast
  | some c =>
    rw [hl] at hlast
    simp only [Option.map_some', Option.some.injEq] at hlast
    simp only [hlast, emitted]

/-- C12 at a block that writes 5 at a path of length one and then the largest
unsigned value at a path of length two, into a map that holds an entry. -/
theorem last_u32_write_wins_witness :
    [5, 4294967295] ≠ [] ∧
    (writeLog (scriptBlock.serializeBlock
        (.write (.u32 5) [("a", 0)] (fun _ =>
          .write (.u32 4294967295) [("b", 0), ("c", 1)] (fun _ => .done))))
      { freshParser with mWriteSD := some (.map [("a", .integer 1)]) }).map (fun c => c.val)
      = [5, 4294967295].map ParamValue.u32 ∧
    (∀ c ∈ writeLog (scriptBlock.serializeBlock
        (.write (.u32 5) [("a", 0)] (fun _ =>
          .write (.u32 4294967295) [("b", 0), ("c", 1)] (fun _ => .done))))
      { freshParser with mWriteSD := some (.map [("a", .integer 1)]) }, c.ok = true) ∧
    (writeSD scriptBlock (.map [("a", .integer 1)])
        (.write (.u32 5) [("a", 0)] (fun _ =>
          .write (.u32 4294967295) [("b", 0), ("c", 1)] (fun _ => .done))) freshParser).mWriteSD
      = some (.integer (toS32 ([5, 4294967295].getLast (by decide)))) ∧
    (LLSD.integer (toS32 ([5, 4294967295].getLast (by decide)))).isMap = false ∧
    ∀ key, (LLSD.integer (toS32 ([5, 4294967295].getLast (by decide)))).member key = none :=
  ⟨by decide, rfl,
    last_u32_write_wins scriptBlock
      (.write (.u32 5) [("a", 0)] (fun _ =>
        .write (.u32 4294967295) [("b", 0), ("c", 1)] (fun _ => .done)))
      (.map [("a", .integer 1)]) freshParser [5, 4294967295] (by decide) rfl⟩

/-! ### The update on the empty path -/

/-- The update of line 115 has no defined result exactly on the empty path. -/
theorem updateGeneration_eq_none_iff {β : Type} (st : ReadState β) :
    updateGeneration st = none ↔ st.parser.mNameStack = [] := by
  constructor
  · intro h
    by_contra hne
    obtain ⟨st1, e1, _⟩ := WalkFacts.update st hne
    rw [e1] at h
    cases h
  · exact updateGeneration_nil st

/-- C13: an update of the top segment meets the empty path, which is the only way
for a read to have no defined result, exactly when the root is an array with at
least one element. For a root that is a map, a scalar, null or the empty array the
read has its result, so every update found a segment. For a root array with
elements the read starts the array loop on the path `readSD` has cleared, and the
first statement of the loop, before any call of `submitValue`, is the update on
that empty path. -/
theorem update_on_empty_path_iff_root_array {β : Type} (blk : BaseBlock β) (sd e : LLSD)
    (rest : List LLSD) (silent : Bool) (p : LLParamSDParser) (block : β) :
    (readSD blk sd silent p block = none ↔ sd.isNonEmptyArray = true) ∧
    (∀ st : ReadState β, updateGeneration st = none ↔ st.parser.mNameStack = []) ∧
    readSD blk (.array (e :: rest)) silent p block =
      (updateGeneration (readSDInit silent p block)).bind
        (fun st1 => (readSDValues blk e st1).bind (readSDArray blk rest)) ∧
    (readSDInit silent p block).parser.mNameStack = [] ∧
    (readSDInit silent p block).calls = [] ∧
    updateGeneration (readSDInit silent p block) = none := by
  refine ⟨?_, updateGeneration_eq_none_iff, ?_, rfl, rfl,
    updateGeneration_nil _ (readSDInit_stack silent p block)⟩
  · rcases isNonEmptyArray_cases sd with h | ⟨e1, rest1, h⟩
    · obtain ⟨st1, e1, _⟩ := readSD_facts blk sd silent p block h
      simp [e1, h]
    · subst h
      simp [readSD_nonEmptyArray, LLSD.isNonEmptyArray]
  · simp only [readSD, readSDValues, readSDArray]
    cases updateGeneration (readSDInit silent p block) with
    | none => rfl
    | some st1 =>
      simp only [Option.bind]
      cases readSDValues blk e st1 <;> rfl

/-! ### The element name -/

theorem foldl_formatSegment (ns : name_stack_t) (acc : String) :
    ns.foldl (fun full_name seg => full_name ++ formatSegment (cString seg.1)) acc =
      acc ++ bracketedKeys ((pathKeys ns).map cString) := by
  induction ns generalizing acc with
  | nil => simp [bracketedKeys, pathKeys]
  | cons seg rest ih =>
    simp only [List.foldl_cons, pathKeys, List.map_cons, bracketedKeys]
    rw [ih]
    simp [pathKeys, formatSegment, String.append_assoc]

/-- A key without a NUL character is handed over whole. -/
theorem cString_of_no_nul (key : String) (h : ∀ c ∈ key.data, c ≠ Char.ofNat 0) :
    cString key = key := by
  unfold cString
  have ht : key.data.takeWhile (fun c => c != Char.ofNat 0) = key.data := by
    rw [List.takeWhile_eq_self_iff]
    intro c hc
    simpa using h c hc
  rw [ht]

/-- C14, counterexample: the path with keys a then b is rendered with the label
"sd", as `sd[a][b]`, and not as `root[a][b]`. -/
theorem element_name_label_is_sd :
    (getCurrentElementName { freshParser with mNameStack := [("a", 1), ("b", 2)] }).1
      = "sd[a][b]" ∧
    (getCurrentElementName { freshParser with mNameStack := [("a", 1), ("b", 2)] }).1
      ≠ "root[a][b]" := by
  constructor <;> decide

/-- C14 as amended: `getCurrentElementName` renders the path as the label "sd"
followed by one bracketed key per segment, root first, where a key is taken up to
its first NUL character (whole when it has none); generations play no part, so two
paths with the same keys render alike. The path with keys a then b renders as
`sd[a][b]`, the empty path as `sd`, and a key made of a, a NUL character and b
renders as `[a]`. The parser after the call is the parser before it, in every
field. -/
theorem getCurrentElementName_renders (p : LLParamSDParser) (d g1 g2 : Nat) :
    (getCurrentElementName p).1 =
      "sd" ++ bracketedKeys ((pathKeys p.mNameStack).map cString) ∧
    (∀ key : String, (∀ c ∈ key.data, c ≠ Char.ofNat 0) → cString key = key) ∧
    (getCurrentElementName { p with mNameStack := shiftStack d p.mNameStack }).1
      = (getCurrentElementName p).1 ∧
    (getCurrentElementName { p with mNameStack := [("a", g1), ("b", g2)] }).1 = "sd[a][b]" ∧
    (getCurrentElementName { p with mNameStack := [] }).1 = "sd" ∧
    (getCurrentElementName { p with mNameStack := [("a\x00b", g1)] }).1 = "sd[a]" ∧
    (getCurrentElementName p).2 = p := by
  refine ⟨foldl_formatSegment _ _, cString_of_no_nul, ?_, ?_, rfl, ?_, rfl⟩
  · simp only [getCurrentElementName, foldl_formatSegment, pathKeys_shiftStack]
  · simp only [getCurrentElementName, foldl_formatSegment, pathKeys, List.map, bracketedKeys]
    decide
  · simp only [getCurrentElementName, foldl_formatSegment, pathKeys, List.map, bracketedKeys]
    decide

/-- C14 as amended, at a path whose keys hold no NUL character. -/
theorem getCurrentElementName_renders_witness :
    (∀ c ∈ ("ab" : String).data, c ≠ Char.ofNat 0) ∧ cString "ab" = "ab" :=
  ⟨by decide,
    (getCurrentElementName_renders freshParser 0 1 2).2.1 "ab" (by decide)⟩

end Kokua
